import Mathlib

/-!
Shallow embedding of the loop-explore repository: the Loop Analysis Engine
(src/src/loop_analyzer.py), the call-graph assembly (src/src/json_output.py)
and the resumable batch orchestration (src/loop_extractor.py), together with
theorems settling the frozen claims of the natural-language specification.

The clang front-end is external to the program.  A parsed translation unit is
modelled as a Cursor tree whose nodes carry exactly the data the code
consumes: kind, spelling, the raw source text of the node's extent
(ASTParser.get_source_text), the location and extent coordinates, the
resolved-reference information and the type/result-type spellings used for
parameter extraction.  The semantic-parent chain of a node (walked by
_calculate_nesting_level) is modelled as the list of ancestor kinds threaded
through the walk.  A per-node exception (caught by the per-node try/except
blocks of the Python code) is modelled by a Boolean flag on the node: a node
whose flag is set contributes nothing, exactly as a node whose inspection
raises and is caught at that node's scope.

Cursor trees and the recursive Loop records are mutual inductives (a node
together with its child list), so every walk below is a structurally
recursive, executable function that reduces inside the kernel.
-/

namespace LoopExplore

/-! ### String helpers mirroring the Python string operations -/

/-- Prefix test on character lists. -/
def listPrefix : List Char → List Char → Bool
  | [], _ => true
  | _ :: _, [] => false
  | a :: as, b :: bs => a == b && listPrefix as bs

/-- Substring occurrence test on character lists. -/
def hasSubAux : List Char → List Char → Bool
  | [], pat => pat.isEmpty
  | h :: t, pat => listPrefix pat (h :: t) || hasSubAux t pat

/-- Python substring containment: pat in s. -/
def containsSub (s pat : String) : Bool := hasSubAux s.data pat.data

/-- Python s.count(ch) for a single character. -/
def charCount (s : String) (ch : Char) : Nat :=
  (s.data.filter (fun c => c == ch)).length

/-- Characters before the first occurrence of pat (Python s.split(pat)[0]). -/
def beforeSub : List Char → List Char → List Char
  | l, pat =>
    if listPrefix pat l then []
    else match l with
      | [] => []
      | h :: t => h :: beforeSub t pat

/-- Whitespace test used by strip(). -/
def isWS (c : Char) : Bool := c == ' ' || c == '\t' || c == '\n' || c == '\r'

/-- Drop leading whitespace characters. -/
def dropWS : List Char → List Char
  | [] => []
  | h :: t => if isWS h then dropWS t else h :: t

/-- Python s.strip(). -/
def trimS (s : String) : String :=
  String.mk ((dropWS (dropWS s.data).reverse).reverse)

/-! ### Ordered string-keyed association lists modelling Python dicts -/

/-- Dict lookup: d.get(k) / k in d. -/
def alookup {α : Type} : List (String × α) → String → Option α
  | [], _ => none
  | (k, v) :: rest, q => if q = k then some v else alookup rest q

/-- Dict assignment d[k] = v: replaces the value in place when the key exists
(keeping its position, as Python dicts do), otherwise appends. -/
def dinsert {α : Type} : List (String × α) → String → α → List (String × α)
  | [], k, v => [(k, v)]
  | (k0, v0) :: rest, k, v =>
    if k0 = k then (k0, v) :: rest else (k0, v0) :: dinsert rest k v

/-- In-place update of the value stored at an existing key. -/
def updAt {α : Type} : List (String × α) → String → (α → α) → List (String × α)
  | [], _, _ => []
  | (k0, v0) :: rest, k, f =>
    if k0 = k then (k0, f v0) :: rest else (k0, v0) :: updAt rest k f

/-! ### Cursor kinds and the syntax tree supplied by the front-end -/

/-- Cursor kinds consumed by the analyzer (clang.cindex.CursorKind). -/
inductive CKind where
  | translationUnit
  | classDecl
  | functionDecl
  | cxxMethod
  | forStmt
  | whileStmt
  | doStmt
  | cxxForRangeStmt
  | parmDecl
  | binaryOperator
  | unaryOperator
  | callExpr
  | declRefExpr
  | arraySubscriptExpr
  | unexposedExpr
  | compoundStmt
  | otherKind
deriving DecidableEq, Repr

/-- Membership in LoopAnalyzer.LOOP_TYPES. -/
def isLoopKind : CKind → Bool
  | .forStmt | .whileStmt | .doStmt | .cxxForRangeStmt => true
  | _ => false

/-- LOOP_TYPES.get(kind, 'unknown_loop'). -/
def loopTypeName : CKind → String
  | .forStmt => "for_loop"
  | .whileStmt => "while_loop"
  | .doStmt => "do_while_loop"
  | .cxxForRangeStmt => "range_for_loop"
  | _ => "unknown_loop"

/-- Per-node data of the front-end's syntax tree.  line/col are
cursor.location, sline/eline/scol/ecol are cursor.extent; text is the raw
source text of the extent; file is cursor.location.file (none for the
translation-unit root); refr/refFile model cursor.referenced; raises models
an exception thrown while inspecting this node, caught by the per-node
try/except of the walker. -/
structure CursorInfo where
  kind : CKind := .otherKind
  spelling : String := ""
  ctype : String := ""
  resultType : String := ""
  text : String := ""
  file : Option String := none
  line : Nat := 0
  col : Nat := 0
  sline : Nat := 0
  eline : Nat := 0
  scol : Nat := 0
  ecol : Nat := 0
  refr : Bool := false
  refFile : String := ""
  raises : Bool := false

mutual
/-- A front-end cursor: its node data together with its ordered children. -/
inductive Cursor where
  | node : CursorInfo → CursorList → Cursor
/-- The ordered child sequence of a cursor (cursor.get_children()). -/
inductive CursorList where
  | nil : CursorList
  | cons : Cursor → CursorList → CursorList
end

/-- Child sequence as a Lean list. -/
def CursorList.toList : CursorList → List Cursor
  | .nil => []
  | .cons c cs => c :: cs.toList

/-- Child sequence from a Lean list (used to write tree literals). -/
def CursorList.ofList : List Cursor → CursorList
  | [] => .nil
  | c :: cs => .cons c (CursorList.ofList cs)

/-- Tree-literal helper. -/
def cnode (i : CursorInfo) (cs : List Cursor) : Cursor := .node i (.ofList cs)

/-- Node data of a cursor. -/
def Cursor.dat : Cursor → CursorInfo
  | .node i _ => i

/-- Children of a cursor, as a list. -/
def Cursor.childrenOf : Cursor → List Cursor
  | .node _ cs => cs.toList

def Cursor.kindOf (c : Cursor) : CKind := c.dat.kind
def Cursor.textOf (c : Cursor) : String := c.dat.text

/-! ### Operation classification (LoopAnalyzer.__init__) -/

def ARITHMETIC_OPS : List String :=
  ["+", "-", "*", "/", "%", "++", "--", "+=", "-=", "*=", "/=", "%="]

def LOGICAL_OPS : List String :=
  ["&&", "||", "!", "==", "!=", "<", ">", "<=", ">="]

def BITWISE_OPS : List String :=
  ["&", "|", "^", "~", "<<", ">>", "&=", "|=", "^=", "<<=", ">>="]

/-- any(op in source_text for op in ops). -/
def hasAnyOp (s : String) (ops : List String) : Bool :=
  ops.any (fun op => containsSub s op)

/-- Classification heuristic of _analyze_binary_operation: fixed order
arithmetic, then logical, then bitwise, over the node's textual form; the
first matching class wins. -/
def classifyBinaryOp (s : String) : String :=
  if hasAnyOp s ARITHMETIC_OPS then "arithmetic"
  else if hasAnyOp s LOGICAL_OPS then "logical"
  else if hasAnyOp s BITWISE_OPS then "bitwise"
  else "unknown"

/-- Access-kind heuristic of _analyze_memory_access over the stripped text. -/
def classifyAccess (s : String) : String :=
  if containsSub s "[" && containsSub s "]" then
    if charCount s '[' = 1 then "1d_array"
    else if charCount s '[' = 2 then "2d_array"
    else "multi_array"
  else if containsSub s "*" then "pointer"
  else if containsSub s "." || containsSub s "->" then "struct_member"
  else "variable"

/-- Variable-name heuristic: text.split('[')[0].split('.')[0].split('->')[0].strip(). -/
def varNameOf (s : String) : String :=
  trimS (String.mk (beforeSub (beforeSub (beforeSub s.data ['[']) ['.']) ['-', '>']))

/-! ### Records produced by the analyzer (the JSON dictionaries) -/

/-- One classified operation record. -/
structure OpRec where
  otype : String
  expression : String
  line : Nat
deriving DecidableEq, Repr

/-- Lightweight call record stored under operations['function_calls']. -/
structure CallRec where
  function : String
  arguments : List String
  line : Nat
deriving DecidableEq, Repr

/-- Detailed call record stored under the loop's function_calls list. -/
structure DCallRec where
  function : String
  line : Nat
  col : Nat
  resolved : Bool
  definition_file : String
deriving DecidableEq, Repr

/-- One memory-access record (loop's memory_access lists). -/
structure MemRec where
  varName : String
  access_pattern : String
  access_type : String
  stride_pattern : String
  line : Nat
deriving DecidableEq, Repr

/-- Loop-bounds record of _extract_loop_bounds. -/
structure BoundsRec where
  initialization : String
  condition : String
  increment : String
  estimated_iterations : String
deriving DecidableEq, Repr

/-- Non-recursive payload of one Loop record.  ops models the operations
dict with its OpRec-valued keys in insertion order (initially arithmetic and
assignments; other and unary may be added later by setdefault); the
operations['function_calls'] list holds call dictionaries in the source and
is modelled as the separate opCalls field, whose key never collides with a
classification result. -/
structure LoopInfo where
  loop_id : String
  ltype : String
  sline : Nat
  eline : Nat
  scol : Nat
  ecol : Nat
  bounds : BoundsRec
  nesting_level : Nat
  ops : List (String × List OpRec)
  opCalls : List CallRec
  reads : List MemRec
  writes : List MemRec
  fcalls : List DCallRec

mutual
/-- A Loop record: its payload together with its owned nested Loop records. -/
inductive LoopRec where
  | node : LoopInfo → LoopRecList → LoopRec
/-- An ordered sequence of Loop records (a nested_loops list). -/
inductive LoopRecList where
  | nil : LoopRecList
  | cons : LoopRec → LoopRecList → LoopRecList
end

/-- Append one record at the end (Python list.append). -/
def LoopRecList.push : LoopRecList → LoopRec → LoopRecList
  | .nil, x => .cons x .nil
  | .cons a rest, x => .cons a (rest.push x)

/-- Nested sequence as a Lean list. -/
def LoopRecList.toList : LoopRecList → List LoopRec
  | .nil => []
  | .cons r rest => r :: rest.toList

/-- Payload of a Loop record. -/
def LoopRec.info : LoopRec → LoopInfo
  | .node i _ => i

/-- Owned nested Loop records, as a list. -/
def LoopRec.nestedOf : LoopRec → List LoopRec
  | .node _ ns => ns.toList

/-- Owned nested Loop records, as a record sequence. -/
def LoopRec.nestedL : LoopRec → LoopRecList
  | .node _ ns => ns

def LoopRec.idOf (r : LoopRec) : String := r.info.loop_id
def LoopRec.typeOf (r : LoopRec) : String := r.info.ltype
def LoopRec.boundsOf (r : LoopRec) : BoundsRec := r.info.bounds
def LoopRec.nestingOf (r : LoopRec) : Nat := r.info.nesting_level
def LoopRec.opsOf (r : LoopRec) : List (String × List OpRec) := r.info.ops
def LoopRec.opCallsOf (r : LoopRec) : List CallRec := r.info.opCalls
def LoopRec.readsOf (r : LoopRec) : List MemRec := r.info.reads
def LoopRec.writesOf (r : LoopRec) : List MemRec := r.info.writes
def LoopRec.fcallsOf (r : LoopRec) : List DCallRec := r.info.fcalls

/-- Update the non-recursive payload. -/
def LoopRec.mapInfo : LoopRec → (LoopInfo → LoopInfo) → LoopRec
  | .node i ns, f => .node (f i) ns

/-- nested_loops.append(record). -/
def LoopRec.pushNested : LoopRec → LoopRec → LoopRec
  | .node i ns, x => .node i (ns.push x)

def LoopRec.withOps (r : LoopRec) (o : List (String × List OpRec)) : LoopRec :=
  r.mapInfo (fun i => { i with ops := o })

def LoopRec.pushOpCall (r : LoopRec) (c : CallRec) : LoopRec :=
  r.mapInfo (fun i => { i with opCalls := i.opCalls ++ [c] })

def LoopRec.pushFCall (r : LoopRec) (c : DCallRec) : LoopRec :=
  r.mapInfo (fun i => { i with fcalls := i.fcalls ++ [c] })

def LoopRec.pushRead (r : LoopRec) (m : MemRec) : LoopRec :=
  r.mapInfo (fun i => { i with reads := i.reads ++ [m] })

/-! ### Loop-bounds extraction (_extract_loop_bounds) -/

/-- Empty bounds with the constant estimated_iterations = unknown. -/
def emptyBounds : BoundsRec :=
  { initialization := "", condition := "", increment := "",
    estimated_iterations := "unknown" }

/-- _extract_loop_bounds: for the FOR_STMT kind the first three children are
initialization, condition and increment; WHILE_STMT takes the first child as
condition; DO_STMT takes the last child as condition when there are at least
two children; all other kinds leave the bounds empty. -/
def extractLoopBounds (c : Cursor) : BoundsRec :=
  match c.kindOf with
  | .forStmt =>
    match c.childrenOf with
    | c0 :: c1 :: c2 :: _ =>
      { emptyBounds with
        initialization := trimS c0.textOf
        condition := trimS c1.textOf
        increment := trimS c2.textOf }
    | _ => emptyBounds
  | .whileStmt =>
    match c.childrenOf with
    | c0 :: _ => { emptyBounds with condition := trimS c0.textOf }
    | _ => emptyBounds
  | .doStmt =>
    if 2 ≤ c.childrenOf.length then
      { emptyBounds with
        condition := ((c.childrenOf.getLast?).map (fun x => trimS x.textOf)).getD "" }
    else emptyBounds
  | _ => emptyBounds

/-! ### Nesting level (_calculate_nesting_level) -/

/-- _calculate_nesting_level: the level starts at 1 and is incremented once
for every loop kind on the semantic-parent chain, modelled as the list of
ancestor kinds (nearest first). -/
def calculateNestingLevel (anc : List CKind) : Nat :=
  1 + (anc.filter (fun k => isLoopKind k)).length

/-! ### Per-node operation analyses inside a loop body -/

/-- Key-membership test of the operations dict (the CallRec-valued
function_calls key is modelled apart but is still a key of the dict). -/
def opsHasKey (ops : List (String × List OpRec)) (k : String) : Bool :=
  (alookup ops k).isSome || k = "function_calls"

/-- Append under a key, creating the key at the end when absent: this is both
dict[k].append(o) for a present key and dict.setdefault(k, []).append(o). -/
def opsAppend : List (String × List OpRec) → String → OpRec → List (String × List OpRec)
  | [], k, o => [(k, [o])]
  | (k0, l) :: rest, k, o =>
    if k0 = k then (k0, l ++ [o]) :: rest else (k0, l) :: opsAppend rest k o

/-- Initial operations dict of a fresh Loop record: keys arithmetic and
assignments (function_calls is the separate CallRec-valued field). -/
def opsInit : List (String × List OpRec) := [("arithmetic", []), ("assignments", [])]

/-- _analyze_binary_operation: classify the textual form, then append the
record to the class's list when the class is a key of the operations dict,
and otherwise to the catch-all other list via setdefault. -/
def recordBinaryOp (ops : List (String × List OpRec)) (text : String) (line : Nat) :
    List (String × List OpRec) :=
  let t := classifyBinaryOp text
  let o : OpRec := { otype := t, expression := trimS text, line := line }
  if opsHasKey ops t then opsAppend ops t o else opsAppend ops "other" o

/-- _analyze_unary_operation: operations.setdefault('unary', []).append(...),
unconditionally. -/
def recordUnaryOp (ops : List (String × List OpRec)) (text : String) (line : Nat) :
    List (String × List OpRec) :=
  opsAppend ops "unary" { otype := "unary", expression := trimS text, line := line }

/-- _analyze_function_call: a lightweight call record under
operations['function_calls'] and a detailed record under function_calls. -/
def analyzeFunctionCall (c : Cursor) (li : LoopRec) : LoopRec :=
  let name := if c.dat.spelling = "" then "unknown_function" else c.dat.spelling
  let args := c.childrenOf.filterMap (fun ch =>
    if ch.kindOf = .unexposedExpr then none
    else
      let t := trimS ch.textOf
      if t = "" then none else some t)
  let lc : CallRec := { function := name, arguments := args, line := c.dat.line }
  let dc : DCallRec :=
    { function := name, line := c.dat.line, col := c.dat.col,
      resolved := c.dat.refr,
      definition_file := if c.dat.refr then c.dat.refFile else "" }
  (li.pushOpCall lc).pushFCall dc

/-- _analyze_memory_access: classify the stripped text and record a read;
writes are never recorded. -/
def analyzeMemoryAccess (c : Cursor) (li : LoopRec) : LoopRec :=
  let s := trimS c.textOf
  if s = "" then li
  else
    li.pushRead
      { varName := varNameOf s, access_pattern := s, access_type := classifyAccess s,
        stride_pattern := "unknown", line := c.dat.line }

/-- Kind dispatch of _analyze_loop_body_recursive over non-loop nodes. -/
def dispatchOps (c : Cursor) (li : LoopRec) : LoopRec :=
  match c.kindOf with
  | .binaryOperator => li.withOps (recordBinaryOp li.opsOf c.textOf c.dat.line)
  | .unaryOperator => li.withOps (recordUnaryOp li.opsOf c.textOf c.dat.line)
  | .callExpr => analyzeFunctionCall c li
  | .declRefExpr => analyzeMemoryAccess c li
  | .arraySubscriptExpr => analyzeMemoryAccess c li
  | _ => li

/-! ### The loop body walk (_analyze_loop_body, _analyze_loop_body_recursive) -/

/-- Fresh nested Loop record created by _analyze_loop_body_recursive when the
body walk meets a nested loop node; the loop_id uses the extent start
coordinates and the nesting level is the parent's plus one. -/
def mkNestedBase (c : Cursor) (nesting : Nat) : LoopRec :=
  .node
    { loop_id := "loop_" ++ toString c.dat.sline ++ "_" ++ toString c.dat.scol
      ltype := loopTypeName c.kindOf
      sline := c.dat.sline, eline := c.dat.eline, scol := c.dat.scol, ecol := c.dat.ecol
      bounds := extractLoopBounds c
      nesting_level := nesting
      ops := opsInit
      opCalls := []
      reads := [], writes := []
      fcalls := [] }
    .nil

mutual
/-- _analyze_loop_body_recursive.  A node whose inspection raises, or a node
outside the target file, contributes nothing.  A nested loop node becomes an
owned child record at nesting level parent + 1; its own body — the last
child, exactly as in _analyze_loop_body — is walked recursively, and the
parent's walk does not descend further into that subtree.  Any other node is
dispatched to the operation analyses and its children are walked in order. -/
def bodyRec : String → Cursor → LoopRec → LoopRec
  | target, .node i cs, li =>
    if i.raises then li
    else if i.file ≠ some target then li
    else if isLoopKind i.kind then
      li.pushNested (bodyLast target cs (mkNestedBase (.node i cs) (li.nestingOf + 1)))
    else
      bodyList target cs (dispatchOps (.node i cs) li)
/-- In-order fold of the body walk over a child sequence. -/
def bodyList : String → CursorList → LoopRec → LoopRec
  | _, .nil, li => li
  | target, .cons c cs, li => bodyList target cs (bodyRec target c li)
/-- _analyze_loop_body: walk the last child (the loop body) when the child
sequence is non-empty; otherwise return the record unchanged. -/
def bodyLast : String → CursorList → LoopRec → LoopRec
  | _, .nil, li => li
  | target, .cons c .nil, li => bodyRec target c li
  | target, .cons _ (.cons c cs), li => bodyLast target (.cons c cs) li
end

/-- Fresh top-level Loop record of _analyze_loop before its body is
analyzed: the loop_id uses cursor.location (line, column) and the nesting
level comes from _calculate_nesting_level over the semantic-parent chain. -/
def mkTopBase (c : Cursor) (anc : List CKind) : LoopRec :=
  .node
    { loop_id := "loop_" ++ toString c.dat.line ++ "_" ++ toString c.dat.col
      ltype := loopTypeName c.kindOf
      sline := c.dat.sline, eline := c.dat.eline, scol := c.dat.scol, ecol := c.dat.ecol
      bounds := extractLoopBounds c
      nesting_level := calculateNestingLevel anc
      ops := opsInit
      opCalls := []
      reads := [], writes := []
      fcalls := [] }
    .nil

/-- Top-level Loop record built by _analyze_loop: the fresh record with the
body (last child) analyzed into it. -/
def mkLoopRecord (target : String) (c : Cursor) (anc : List CKind) : LoopRec :=
  match c with
  | .node i cs => bodyLast target cs (mkTopBase (.node i cs) anc)

/-! ### Declarations and the per-file analysis container -/

/-- A function or method entry of the analysis (functions / methods dicts). -/
structure FuncRec where
  start_line : Nat
  end_line : Nat
  parameters : List String := []
  return_type : String := ""
  loops : List LoopRec := []

/-- A class entry of the analysis. -/
structure ClassRec where
  start_line : Nat
  end_line : Nat
  methods : List (String × FuncRec) := []

/-- The per-file analysis dict built by analyze_file.  The environmental
file_info fields (size, mtime, includes) are not modelled; its total_loops
counter is. -/
structure FileAnalysis where
  classes : List (String × ClassRec) := []
  functions : List (String × FuncRec) := []
  global_loops : List LoopRec := []
  total_loops : Nat := 0

/-- Walker context: the nearest enclosing declaration recorded by
_analyze_cursor when recursing into children. -/
inductive Ctx where
  | funcCtx (name : String)
  | classCtx (name : String)
deriving DecidableEq, Repr

/-- _analyze_class. -/
def analyzeClassDecl (c : Cursor) (fa : FileAnalysis) : FileAnalysis :=
  let name := if c.dat.spelling = "" then "anonymous_class_" ++ toString c.dat.line
              else c.dat.spelling
  let entry : ClassRec :=
    { start_line := c.dat.sline, end_line := c.dat.eline, methods := [] }
  { fa with classes := dinsert fa.classes name entry }

/-- Parameter descriptions from the PARM_DECL children. -/
def paramStrings (c : Cursor) : List String :=
  c.childrenOf.filterMap (fun ch =>
    if ch.kindOf = .parmDecl then some (trimS (ch.dat.ctype ++ " " ++ ch.dat.spelling))
    else none)

/-- _analyze_function. -/
def analyzeFunctionDecl (c : Cursor) (fa : FileAnalysis) : FileAnalysis :=
  let name := if c.dat.spelling = "" then "anonymous_function_" ++ toString c.dat.line
              else c.dat.spelling
  let entry : FuncRec :=
    { start_line := c.dat.sline, end_line := c.dat.eline,
      parameters := paramStrings c, return_type := c.dat.resultType, loops := [] }
  { fa with functions := dinsert fa.functions name entry }

/-- _analyze_method: writes into the context class's methods dict; a missing
class entry loses the method, as the dangling dict reference does in the
source. -/
def analyzeMethodDecl (c : Cursor) (cname : String) (fa : FileAnalysis) : FileAnalysis :=
  let name := if c.dat.spelling = "" then "anonymous_method_" ++ toString c.dat.line
              else c.dat.spelling
  let entry : FuncRec :=
    { start_line := c.dat.sline, end_line := c.dat.eline,
      parameters := paramStrings c, return_type := c.dat.resultType, loops := [] }
  { fa with classes := updAt fa.classes cname (fun cd =>
      { cd with methods := dinsert cd.methods name entry }) }

/-- Attach a loop to the first function (in dict order) whose line span
contains the loop's extent start line; when none contains it, the record is
dropped, as in the source's search loop with no match. -/
def attachLoopFns : List (String × FuncRec) → Nat → LoopRec → List (String × FuncRec)
  | [], _, _ => []
  | (n, f) :: rest, sl, li =>
    if f.start_line ≤ sl ∧ sl ≤ f.end_line then
      (n, { f with loops := f.loops ++ [li] }) :: rest
    else (n, f) :: attachLoopFns rest sl li

/-- Attach a loop to the first containing method of the context class. -/
def attachLoopClass (cs : List (String × ClassRec)) (cname : String) (sl : Nat)
    (li : LoopRec) : List (String × ClassRec) :=
  updAt cs cname (fun cd => { cd with methods := attachLoopFns cd.methods sl li })

/-- _analyze_loop: build the fully populated record, attach it to the
container selected by the context, and bump the file's total_loops. -/
def analyzeLoopTop (target : String) (c : Cursor) (anc : List CKind)
    (ctx : Option Ctx) (fa : FileAnalysis) : FileAnalysis :=
  let li := mkLoopRecord target c anc
  let fa1 :=
    match ctx with
    | some (.funcCtx _) =>
      { fa with functions := attachLoopFns fa.functions c.dat.sline li }
    | some (.classCtx cname) =>
      { fa with classes := attachLoopClass fa.classes cname c.dat.sline li }
    | none => { fa with global_loops := fa.global_loops ++ [li] }
  { fa1 with total_loops := fa1.total_loops + 1 }

/-- Kind dispatch of _analyze_cursor: open a class/function/method
declaration or delegate a loop node to _analyze_loop; all other kinds leave
the analysis unchanged. -/
def declDispatch (target : String) (c : Cursor) (anc : List CKind) (ctx : Option Ctx)
    (fa : FileAnalysis) : FileAnalysis :=
  match c.kindOf with
  | .classDecl => analyzeClassDecl c fa
  | .functionDecl => analyzeFunctionDecl c fa
  | .cxxMethod =>
    match ctx with
    | some (.classCtx cname) => analyzeMethodDecl c cname fa
    | _ => fa
  | k => if isLoopKind k then analyzeLoopTop target c anc ctx fa else fa

/-- Context passed by _analyze_cursor to the children of a node: a class
node opens a class context, a function or method node opens a function
context, every other node passes its own context through. -/
def childCtx (c : Cursor) (ctx : Option Ctx) : Option Ctx :=
  if c.kindOf = .classDecl then
    some (.classCtx (if c.dat.spelling = "" then
      "anonymous_class_" ++ toString c.dat.line else c.dat.spelling))
  else if c.kindOf = .functionDecl ∨ c.kindOf = .cxxMethod then
    some (.funcCtx c.dat.spelling)
  else ctx

mutual
/-- _analyze_cursor: the depth-first walk over the whole tree.  A node whose
inspection raises contributes nothing (caught at its scope); a node located
in another file is skipped, while a node without a location (the
translation-unit root) is allowed through.  The kind dispatch opens
declarations and delegates loop nodes to _analyze_loop, and the walk then
descends into all children — including the children of loop nodes — with the
context updated at class/function/method nodes and the current node's kind
pushed onto the ancestor chain. -/
def analyzeCursor : String → Cursor → List CKind → Option Ctx → FileAnalysis → FileAnalysis
  | target, .node i cs, anc, ctx, fa =>
    if i.raises then fa
    else if i.file ≠ some target ∧ i.file.isSome then fa
    else
      analyzeCursorList target cs (i.kind :: anc) (childCtx (.node i cs) ctx)
        (declDispatch target (.node i cs) anc ctx fa)
/-- In-order fold of the walk over a child sequence. -/
def analyzeCursorList : String → CursorList → List CKind → Option Ctx → FileAnalysis →
    FileAnalysis
  | _, .nil, _, _, fa => fa
  | target, .cons c cs, anc, ctx, fa =>
    analyzeCursorList target cs anc ctx (analyzeCursor target c anc ctx fa)
end

/-- analyze_file: walk the translation unit's root cursor into a fresh
per-file analysis.  Exceptions during the walk are caught inside the walk
(per node), so the function is total and always returns the analysis built
so far. -/
def emptyFileAnalysis : FileAnalysis :=
  { classes := [], functions := [], global_loops := [], total_loops := 0 }

def analyzeFile (target : String) (root : Cursor) : FileAnalysis :=
  analyzeCursor target root [] none emptyFileAnalysis

/-! ### Loop counting (count_loops, _count_loops_recursive) -/

mutual
/-- Contribution of one record to _count_loops_recursive: itself plus its
nested subtree. -/
def loopTreeCount : LoopRec → Nat
  | .node _ ns => 1 + loopListCount ns
def loopListCount : LoopRecList → Nat
  | .nil => 0
  | .cons r rest => loopTreeCount r + loopListCount rest
end

/-- _count_loops_recursive over a declaration's loop list. -/
def countLoopsIn (l : List LoopRec) : Nat := (l.map loopTreeCount).sum

/-- count_loops: global loops are counted shallowly (len only), function and
method loops recursively. -/
def countLoops (fa : FileAnalysis) : Nat :=
  fa.global_loops.length
    + (fa.functions.map (fun e => countLoopsIn e.2.loops)).sum
    + (fa.classes.map (fun ce =>
        (ce.2.methods.map (fun me => countLoopsIn me.2.loops)).sum)).sum

/-! ### Call-graph assembly (json_output._generate_call_graph) -/

/-- One call-graph node. -/
structure CGNode where
  calls : List String := []
  called_by : List String := []
  calls_in_loops : List String := []
deriving DecidableEq, Repr

/-- Record one callee name: append to calls_in_loops and to calls, each
guarded by non-emptiness and first-seen deduplication. -/
def cgStep (n : CGNode) (name : String) : CGNode :=
  let n1 :=
    if name ≠ "" ∧ ¬ n.calls_in_loops.contains name then
      { n with calls_in_loops := n.calls_in_loops ++ [name] }
    else n
  if name ≠ "" ∧ ¬ n1.calls.contains name then
    { n1 with calls := n1.calls ++ [name] }
  else n1

/-- Fold of cgStep over one loop's detailed call records. -/
def foldCalls (n : CGNode) (cl : List DCallRec) : CGNode :=
  cl.foldl (fun n c => cgStep n c.function) n

mutual
/-- _extract_calls_from_loops for one record: its own calls first, then its
nested records in order. -/
def ecLoop : LoopRec → CGNode → CGNode
  | .node i ns, n => ecList ns (foldCalls n i.fcalls)
def ecList : LoopRecList → CGNode → CGNode
  | .nil, n => n
  | .cons r rest, n => ecList rest (ecLoop r n)
end

/-- _extract_calls_from_loops over a declaration's loop list. -/
def extractCallsFromLoops (l : List LoopRec) (n : CGNode) : CGNode :=
  l.foldl (fun n r => ecLoop r n) n

/-- Ensure a graph node exists for a name, then fold the loop calls of one
declaration into it. -/
def emptyCG : CGNode := { calls := [], called_by := [], calls_in_loops := [] }

def cgAddFn (g : List (String × CGNode)) (name : String) (loops : List LoopRec) :
    List (String × CGNode) :=
  let g1 := if (alookup g name).isNone then g ++ [(name, emptyCG)] else g
  updAt g1 name (extractCallsFromLoops loops)

/-- _generate_call_graph: functions under their own name, methods under the
qualified Class::Method name; called_by is never written. -/
def genCallGraph (results : List (String × FileAnalysis)) : List (String × CGNode) :=
  results.foldl (fun g e =>
    let g1 := e.2.functions.foldl (fun g fe => cgAddFn g fe.1 fe.2.loops) g
    e.2.classes.foldl (fun g ce =>
      ce.2.methods.foldl (fun g me =>
        cgAddFn g (ce.1 ++ "::" ++ me.1) me.2.loops) g) g1) []

/-! ### The orchestrator (loop_extractor.main) -/

/-- Accumulating run state of the orchestrator: the result map (source_files
of the artifact), the running loop total and the processed-files counter. -/
structure RunState where
  results : List (String × FileAnalysis) := []
  totalLoops : Nat := 0
  processed : Nat := 0

/-- One iteration of the per-file loop.  The front-end is the parse oracle:
none models a parse failure (parse_file returned None: log, skip, no entry);
some t merges the analysis of the returned tree.  The processed counter is
set in the finally block, for every attempted file. -/
def processFile (parse : String → Option Cursor) (st : RunState) (p : String) : RunState :=
  match parse p with
  | none => { st with processed := st.processed + 1 }
  | some t =>
    let fa := analyzeFile p t
    { results := dinsert st.results p fa
      totalLoops := st.totalLoops + countLoops fa
      processed := st.processed + 1 }

/-- The per-file loop over a file list. -/
def runFiles (parse : String → Option Cursor) (files : List String) (st : RunState) :
    RunState :=
  files.foldl (processFile parse) st

/-- A fresh run state. -/
def initRunState : RunState := { results := [], totalLoops := 0, processed := 0 }

/-- A from-scratch run over a discovered file list. -/
def scratchRun (parse : String → Option Cursor) (files : List String) : RunState :=
  runFiles parse files initRunState

/-- Resume from a checkpoint state: re-discover the same file list, exclude
every path already present as a key of the checkpoint's result map, seed the
result map from the checkpoint, recompute the loop total from the stored
analyses (count_loops over the checkpoint values) and seed the processed
counter with the start index. -/
def resumeRun (parse : String → Option Cursor) (files : List String) (ck : RunState) :
    RunState :=
  let remaining := files.filter (fun f => (alookup ck.results f).isNone)
  let startIndex := files.length - remaining.length
  runFiles parse remaining
    { results := ck.results
      totalLoops := (ck.results.map (fun e => countLoops e.2)).sum
      processed := startIndex }

/-- Checkpoint artifact written by save_checkpoint: the full result map plus
the run-state metadata fields. -/
structure CkptRec where
  source_files : List (String × FileAnalysis)
  files_processed : Nat
  files_remaining : Nat
  checkpointFlag : Bool

/-- Terminal output artifact written on interruption: same schema as a
completed run plus interrupted = true and the processed/remaining counts. -/
structure OutRec where
  source_files : List (String × FileAnalysis)
  files_processed : Nat
  files_remaining : Nat
  interrupted : Bool

/-- save_checkpoint: regenerated from the complete in-memory result map. -/
def saveCheckpoint (st : RunState) (totalFiles : Nat) : CkptRec :=
  { source_files := st.results
    files_processed := st.processed
    files_remaining := totalFiles - st.processed
    checkpointFlag := true }

/-- The partial output emitted by the KeyboardInterrupt handler. -/
def interruptOutput (st : RunState) (totalFiles : Nat) : OutRec :=
  { source_files := st.results
    files_processed := st.processed
    files_remaining := totalFiles - st.processed
    interrupted := true }

/-- Cancelling the run at the file boundary after i attempted files: the
handler saves one final checkpoint and then emits the terminal output, both
from the same accumulated state. -/
def cancelAfter (parse : String → Option Cursor) (files : List String) (i : Nat) :
    CkptRec × OutRec :=
  let st := runFiles parse (files.take i) initRunState
  (saveCheckpoint st files.length, interruptOutput st files.length)

/-! ### Derived views used by the claims -/

/-- All Loop records directly attached to a container of the analysis: the
file's global loops and every declaration's top-level loop list. -/
def allTopRecords (fa : FileAnalysis) : List LoopRec :=
  fa.global_loops
    ++ (fa.functions.map (fun e => e.2.loops)).flatten
    ++ (fa.classes.map (fun ce => (ce.2.methods.map (fun me => me.2.loops)).flatten)).flatten

mutual
/-- Decidable check of the nesting-level chain: the record's own level is k,
and every owned nested record satisfies the chain at k + 1 (one more than
its enclosing record's level). -/
def nestChainB : Nat → LoopRec → Bool
  | k, .node i ns => (i.nesting_level == k) && nestChainListB (k + 1) ns
def nestChainListB : Nat → LoopRecList → Bool
  | _, .nil => true
  | k, .cons r rest => nestChainB k r && nestChainListB k rest
end

/-! ### Concrete front-end trees used by the scenario claims

Each tree is the parse of a small source file as the external front-end
would present it to the walker: statement and expression nodes with their
kinds, source text and locations. -/

/-- Target path of the bounds scenarios. -/
def exTarget : String := "ex.c"

/-- Parse of: for (i = 0; i < 10; i++) { sum += arr[i]; } -/
def t6 : Cursor := cnode { kind := .translationUnit } [
  cnode { kind := .forStmt, file := some exTarget, line := 1, col := 1,
          sline := 1, eline := 1, scol := 1, ecol := 45 } [
    cnode { kind := .binaryOperator, file := some exTarget, text := "i = 0", line := 1 } [],
    cnode { kind := .binaryOperator, file := some exTarget, text := "i < 10", line := 1 } [],
    cnode { kind := .unaryOperator, file := some exTarget, text := "i++", line := 1 } [],
    cnode { kind := .compoundStmt, file := some exTarget,
            text := "{ sum += arr[i]; }", line := 1 } [
      cnode { kind := .binaryOperator, file := some exTarget,
              text := "sum += arr[i]", line := 1 } [
        cnode { kind := .declRefExpr, spelling := "sum", file := some exTarget,
                text := "sum", line := 1 } [],
        cnode { kind := .arraySubscriptExpr, file := some exTarget,
                text := "arr[i]", line := 1 } [
          cnode { kind := .declRefExpr, spelling := "arr", file := some exTarget,
                  text := "arr", line := 1 } [],
          cnode { kind := .declRefExpr, spelling := "i", file := some exTarget,
                  text := "i", line := 1 } []
        ]
      ]
    ]
  ]
]

/-- The do-while statement node of: do { x++; } while (x < n); -/
def t7do : Cursor :=
  cnode { kind := .doStmt, file := some exTarget, line := 1, col := 1,
          sline := 1, eline := 1, scol := 1, ecol := 30 } [
  cnode { kind := .compoundStmt, file := some exTarget, text := "{ x++; }", line := 1 } [
    cnode { kind := .unaryOperator, file := some exTarget, text := "x++", line := 1 } [
      cnode { kind := .declRefExpr, spelling := "x", file := some exTarget,
              text := "x", line := 1 } []
    ]
  ],
  cnode { kind := .binaryOperator, file := some exTarget, text := "x < n", line := 1 } [
    cnode { kind := .declRefExpr, spelling := "x", file := some exTarget,
            text := "x", line := 1 } [],
    cnode { kind := .declRefExpr, spelling := "n", file := some exTarget,
            text := "n", line := 1 } []
  ]
]

/-- Parse of: do { x++; } while (x < n); -/
def t7 : Cursor := cnode { kind := .translationUnit } [t7do]

/-- Target path of the call-graph scenario. -/
def t4Target : String := "c4.cpp"

/-- Parse of a function f whose loop calls g twice and which calls h once
outside any loop. -/
def t4 : Cursor := cnode { kind := .translationUnit } [
  cnode { kind := .functionDecl, spelling := "f", resultType := "void",
          file := some t4Target, line := 1, sline := 1, eline := 10 } [
    cnode { kind := .compoundStmt, file := some t4Target, sline := 1, eline := 10 } [
      cnode { kind := .whileStmt, file := some t4Target, line := 2, col := 3,
              sline := 2, eline := 6, scol := 3, ecol := 4 } [
        cnode { kind := .binaryOperator, file := some t4Target, text := "i < n", line := 2 } [],
        cnode { kind := .compoundStmt, file := some t4Target, sline := 2, eline := 6 } [
          cnode { kind := .callExpr, spelling := "g", file := some t4Target,
                  text := "g(i)", line := 3 } [
            cnode { kind := .declRefExpr, spelling := "g", file := some t4Target,
                    text := "g", line := 3 } [],
            cnode { kind := .declRefExpr, spelling := "i", file := some t4Target,
                    text := "i", line := 3 } []
          ],
          cnode { kind := .callExpr, spelling := "g", file := some t4Target,
                  text := "g(i + 1)", line := 4 } []
        ]
      ],
      cnode { kind := .callExpr, spelling := "h", file := some t4Target,
              text := "h()", line := 8 } []
    ]
  ]
]

/-- The accumulated result set of the call-graph scenario. -/
def rs4 : List (String × FileAnalysis) := [(t4Target, analyzeFile t4Target t4)]

/-- Target path of the nested-loop scenario. -/
def t3Target : String := "n.c"

/-- Parse of a function f with a for loop whose body contains another for
loop (a nested loop node at line 3, column 3). -/
def t3 : Cursor := cnode { kind := .translationUnit } [
  cnode { kind := .functionDecl, spelling := "f", resultType := "void",
          file := some t3Target, line := 1, sline := 1, eline := 10 } [
    cnode { kind := .compoundStmt, file := some t3Target, sline := 1, eline := 10 } [
      cnode { kind := .forStmt, file := some t3Target, line := 2, col := 1,
              sline := 2, eline := 6, scol := 1, ecol := 4 } [
        cnode { kind := .binaryOperator, file := some t3Target, text := "i = 0", line := 2 } [],
        cnode { kind := .binaryOperator, file := some t3Target, text := "i < n", line := 2 } [],
        cnode { kind := .unaryOperator, file := some t3Target, text := "i++", line := 2 } [],
        cnode { kind := .compoundStmt, file := some t3Target, sline := 2, eline := 6 } [
          cnode { kind := .forStmt, file := some t3Target, line := 3, col := 3,
                  sline := 3, eline := 5, scol := 3, ecol := 4 } [
            cnode { kind := .binaryOperator, file := some t3Target, text := "j = 0", line := 3 } [],
            cnode { kind := .binaryOperator, file := some t3Target, text := "j < m", line := 3 } [],
            cnode { kind := .unaryOperator, file := some t3Target, text := "j++", line := 3 } [],
            cnode { kind := .compoundStmt, file := some t3Target, sline := 3, eline := 5 } []
          ]
        ]
      ]
    ]
  ]
]

/-- Target path of the operation-classification scenario. -/
def t5Target : String := "c5.c"

/-- Parse of a while loop whose body contains the purely logical binary
operation ok && go. -/
def t5 : Cursor := cnode { kind := .translationUnit } [
  cnode { kind := .whileStmt, file := some t5Target, line := 1, col := 1,
          sline := 1, eline := 3, scol := 1, ecol := 2 } [
    cnode { kind := .binaryOperator, file := some t5Target, text := "i < n", line := 1 } [],
    cnode { kind := .compoundStmt, file := some t5Target, sline := 1, eline := 3 } [
      cnode { kind := .binaryOperator, file := some t5Target, text := "ok && go", line := 2 } []
    ]
  ]
]

/-- Target path of the exception-during-walk scenario. -/
def t2Target : String := "a.c"

/-- Parse of a file with a healthy function g (containing one loop) and a
function h whose inspection raises: the walk loses h and everything below
it, yet the file still yields an analysis. -/
def t2 : Cursor := cnode { kind := .translationUnit } [
  cnode { kind := .functionDecl, spelling := "g", resultType := "void",
          file := some t2Target, line := 1, sline := 1, eline := 4 } [
    cnode { kind := .compoundStmt, file := some t2Target, sline := 1, eline := 4 } [
      cnode { kind := .whileStmt, file := some t2Target, line := 2, col := 3,
              sline := 2, eline := 3, scol := 3, ecol := 4 } [
        cnode { kind := .binaryOperator, file := some t2Target, text := "x < 3", line := 2 } [],
        cnode { kind := .compoundStmt, file := some t2Target, sline := 2, eline := 3 } []
      ]
    ]
  ],
  cnode { kind := .functionDecl, spelling := "h", resultType := "void", raises := true,
          file := some t2Target, line := 6, sline := 6, eline := 9 } [
    cnode { kind := .compoundStmt, file := some t2Target, sline := 6, eline := 9 } [
      cnode { kind := .forStmt, file := some t2Target, line := 7, sline := 7, eline := 8 } []
    ]
  ]
]

/-- Front-end oracle of the exception scenario. -/
def parse2 (p : String) : Option Cursor := if p = t2Target then some t2 else none

/-- A minimal healthy translation unit. -/
def tinyTree : Cursor := cnode { kind := .translationUnit } []

/-- Front-end oracle with one unparsable file a.c and one healthy file b.c. -/
def parseMixed (p : String) : Option Cursor :=
  if p = "b.c" then some tinyTree else none

/-- Front-end oracle that fails to parse every file. -/
def parseNone (_ : String) : Option Cursor := none

/-- Front-end oracle that parses every file successfully. -/
def parseOk (_ : String) : Option Cursor := some tinyTree

/-! ### Record-level lemmas -/

theorem mapInfo_nestingOf (r : LoopRec) (f : LoopInfo → LoopInfo)
    (hf : ∀ i, (f i).nesting_level = i.nesting_level) :
    (r.mapInfo f).nestingOf = r.nestingOf := by
  cases r with
  | node i ns => exact hf i

theorem mapInfo_nestedL (r : LoopRec) (f : LoopInfo → LoopInfo) :
    (r.mapInfo f).nestedL = r.nestedL := by
  cases r with
  | node i ns => rfl

theorem pushNested_nestingOf (r x : LoopRec) : (r.pushNested x).nestingOf = r.nestingOf := by
  cases r with
  | node i ns => rfl

theorem pushNested_nestedL (r x : LoopRec) : (r.pushNested x).nestedL = r.nestedL.push x := by
  cases r with
  | node i ns => rfl

theorem analyzeFunctionCall_nestingOf (c : Cursor) (li : LoopRec) :
    (analyzeFunctionCall c li).nestingOf = li.nestingOf := by
  cases li with
  | node i ns => rfl

theorem analyzeFunctionCall_nestedL (c : Cursor) (li : LoopRec) :
    (analyzeFunctionCall c li).nestedL = li.nestedL := by
  cases li with
  | node i ns => rfl

theorem analyzeMemoryAccess_nestingOf (c : Cursor) (li : LoopRec) :
    (analyzeMemoryAccess c li).nestingOf = li.nestingOf := by
  cases li with
  | node i ns =>
    simp only [analyzeMemoryAccess]
    split <;> rfl

theorem analyzeMemoryAccess_nestedL (c : Cursor) (li : LoopRec) :
    (analyzeMemoryAccess c li).nestedL = li.nestedL := by
  cases li with
  | node i ns =>
    simp only [analyzeMemoryAccess]
    split <;> rfl

theorem dispatchOps_nestingOf (c : Cursor) (li : LoopRec) :
    (dispatchOps c li).nestingOf = li.nestingOf := by
  unfold dispatchOps
  cases hk : c.kindOf <;>
    simp [analyzeFunctionCall_nestingOf, analyzeMemoryAccess_nestingOf,
      LoopRec.withOps, mapInfo_nestingOf]

theorem dispatchOps_nestedL (c : Cursor) (li : LoopRec) :
    (dispatchOps c li).nestedL = li.nestedL := by
  unfold dispatchOps
  cases hk : c.kindOf <;>
    simp [analyzeFunctionCall_nestedL, analyzeMemoryAccess_nestedL,
      LoopRec.withOps, mapInfo_nestedL]

theorem nestChainB_eq (k : Nat) (r : LoopRec) :
    nestChainB k r = ((r.nestingOf == k) && nestChainListB (k + 1) r.nestedL) := by
  cases r with
  | node i ns => rfl

theorem nestChainListB_push : ∀ (k : Nat) (ns : LoopRecList) (r : LoopRec),
    nestChainListB k (ns.push r) = (nestChainListB k ns && nestChainB k r)
  | k, .nil, r => by simp [LoopRecList.push, nestChainListB]
  | k, .cons a rest, r => by
    simp [LoopRecList.push, nestChainListB, nestChainListB_push k rest r, Bool.and_assoc]

/-! ### The body walk preserves the nesting level of the record it extends -/

mutual
theorem bodyRec_nestingOf : ∀ (target : String) (c : Cursor) (li : LoopRec),
    (bodyRec target c li).nestingOf = li.nestingOf
  | target, .node i cs, li => by
    rw [bodyRec]
    split
    · rfl
    split
    · rfl
    split
    · exact pushNested_nestingOf li _
    · rw [bodyList_nestingOf target cs (dispatchOps (.node i cs) li)]
      exact dispatchOps_nestingOf _ li
theorem bodyList_nestingOf : ∀ (target : String) (cs : CursorList) (li : LoopRec),
    (bodyList target cs li).nestingOf = li.nestingOf
  | _, .nil, li => by rw [bodyList]
  | target, .cons c cs, li => by
    rw [bodyList, bodyList_nestingOf target cs (bodyRec target c li)]
    exact bodyRec_nestingOf target c li
theorem bodyLast_nestingOf : ∀ (target : String) (cs : CursorList) (li : LoopRec),
    (bodyLast target cs li).nestingOf = li.nestingOf
  | _, .nil, li => by rw [bodyLast]
  | target, .cons c .nil, li => by
    rw [bodyLast]; exact bodyRec_nestingOf target c li
  | target, .cons a (.cons c cs), li => by
    rw [bodyLast]; exact bodyLast_nestingOf target (.cons c cs) li
end

/-! ### The body walk only appends nested records whose levels chain -/

mutual
theorem bodyRec_chain : ∀ (target : String) (c : Cursor) (li : LoopRec),
    nestChainListB (li.nestingOf + 1) li.nestedL = true →
    nestChainListB (li.nestingOf + 1) (bodyRec target c li).nestedL = true
  | target, .node i cs, li, h => by
    rw [bodyRec]
    split
    · exact h
    split
    · exact h
    split
    · rw [pushNested_nestedL, nestChainListB_push]
      refine (Bool.and_eq_true _ _).mpr ⟨h, ?_⟩
      rw [nestChainB_eq]
      refine (Bool.and_eq_true _ _).mpr ⟨?_, ?_⟩
      · rw [bodyLast_nestingOf]
        simp [mkNestedBase, LoopRec.nestingOf, LoopRec.info]
      · have h0 : nestChainListB
            ((mkNestedBase (.node i cs) (li.nestingOf + 1)).nestingOf + 1)
            (mkNestedBase (.node i cs) (li.nestingOf + 1)).nestedL = true := rfl
        exact bodyLast_chain target cs
          (mkNestedBase (.node i cs) (li.nestingOf + 1)) h0
    · have hd1 : (dispatchOps (.node i cs) li).nestingOf = li.nestingOf :=
        dispatchOps_nestingOf _ li
      have hd2 : (dispatchOps (.node i cs) li).nestedL = li.nestedL :=
        dispatchOps_nestedL _ li
      have hrec := bodyList_chain target cs (dispatchOps (.node i cs) li)
        (by rw [hd1, hd2]; exact h)
      rw [hd1] at hrec
      exact hrec
theorem bodyList_chain : ∀ (target : String) (cs : CursorList) (li : LoopRec),
    nestChainListB (li.nestingOf + 1) li.nestedL = true →
    nestChainListB (li.nestingOf + 1) (bodyList target cs li).nestedL = true
  | _, .nil, li, h => by rw [bodyList]; exact h
  | target, .cons c cs, li, h => by
    rw [bodyList]
    have h1 := bodyRec_chain target c li h
    have h2 := bodyList_chain target cs (bodyRec target c li)
      (by rw [bodyRec_nestingOf]; exact h1)
    rw [bodyRec_nestingOf] at h2
    exact h2
theorem bodyLast_chain : ∀ (target : String) (cs : CursorList) (li : LoopRec),
    nestChainListB (li.nestingOf + 1) li.nestedL = true →
    nestChainListB (li.nestingOf + 1) (bodyLast target cs li).nestedL = true
  | _, .nil, li, h => by rw [bodyLast]; exact h
  | target, .cons c .nil, li, h => by
    rw [bodyLast]; exact bodyRec_chain target c li h
  | target, .cons a (.cons c cs), li, h => by
    rw [bodyLast]; exact bodyLast_chain target (.cons c cs) li h
end

/-! ### Every record _analyze_loop builds satisfies the nesting chain -/

theorem mkLoopRecord_nestingOf (target : String) (c : Cursor) (anc : List CKind) :
    (mkLoopRecord target c anc).nestingOf = calculateNestingLevel anc := by
  cases c with
  | node i cs => rw [mkLoopRecord, bodyLast_nestingOf]; rfl

theorem mkLoopRecord_chain (target : String) (c : Cursor) (anc : List CKind) :
    nestChainB (calculateNestingLevel anc) (mkLoopRecord target c anc) = true := by
  rw [nestChainB_eq]
  refine (Bool.and_eq_true _ _).mpr ⟨by simp [mkLoopRecord_nestingOf], ?_⟩
  cases c with
  | node i cs =>
    rw [mkLoopRecord]
    have h0 : nestChainListB ((mkTopBase (.node i cs) anc).nestingOf + 1)
        (mkTopBase (.node i cs) anc).nestedL = true := rfl
    exact bodyLast_chain target cs (mkTopBase (.node i cs) anc) h0

/-! ### The whole-file walk only attaches records satisfying the chain -/

/-- A record whose stored nesting level roots a consistent chain: every
nested descendant sits one level above its owner. -/
def recChainOK (r : LoopRec) : Prop := nestChainB r.nestingOf r = true

/-- Every record attached anywhere in the analysis roots a consistent
chain. -/
def faChainOK (fa : FileAnalysis) : Prop :=
  (∀ r ∈ fa.global_loops, recChainOK r) ∧
  (∀ e ∈ fa.functions, ∀ r ∈ e.2.loops, recChainOK r) ∧
  (∀ ce ∈ fa.classes, ∀ me ∈ ce.2.methods, ∀ r ∈ me.2.loops, recChainOK r)

theorem dinsert_forall {α : Type} (P : α → Prop) (m : List (String × α)) (k : String)
    (v : α) (hm : ∀ e ∈ m, P e.2) (hv : P v) : ∀ e ∈ dinsert m k v, P e.2 := by
  induction m with
  | nil =>
    intro e he
    simp only [dinsert, List.mem_singleton] at he
    subst he; exact hv
  | cons hd rest ih =>
    obtain ⟨k0, v0⟩ := hd
    intro e he
    by_cases h : k0 = k
    · simp only [dinsert, h, if_pos rfl] at he
      rcases List.mem_cons.mp he with rfl | he
      · exact hv
      · exact hm e (List.mem_cons_of_mem _ he)
    · simp only [dinsert, if_neg h] at he
      rcases List.mem_cons.mp he with rfl | he
      · exact hm (k0, v0) (List.mem_cons_self _ _)
      · exact ih (fun e he => hm e (List.mem_cons_of_mem _ he)) e he

theorem updAt_forall {α : Type} (P : α → Prop) (m : List (String × α)) (k : String)
    (f : α → α) (hm : ∀ e ∈ m, P e.2) (hf : ∀ v, P v → P (f v)) :
    ∀ e ∈ updAt m k f, P e.2 := by
  induction m with
  | nil => intro e he; simp [updAt] at he
  | cons hd rest ih =>
    obtain ⟨k0, v0⟩ := hd
    intro e he
    by_cases h : k0 = k
    · simp only [updAt, h, if_pos rfl] at he
      rcases List.mem_cons.mp he with rfl | he
      · exact hf v0 (hm (k0, v0) (List.mem_cons_self _ _))
      · exact hm e (List.mem_cons_of_mem _ he)
    · simp only [updAt, if_neg h] at he
      rcases List.mem_cons.mp he with rfl | he
      · exact hm (k0, v0) (List.mem_cons_self _ _)
      · exact ih (fun e he => hm e (List.mem_cons_of_mem _ he)) e he

theorem attachLoopFns_forall (P : LoopRec → Prop) (fns : List (String × FuncRec))
    (sl : Nat) (li : LoopRec) (h : ∀ e ∈ fns, ∀ r ∈ e.2.loops, P r) (hli : P li) :
    ∀ e ∈ attachLoopFns fns sl li, ∀ r ∈ e.2.loops, P r := by
  induction fns with
  | nil => intro e he; simp [attachLoopFns] at he
  | cons hd rest ih =>
    obtain ⟨n, f⟩ := hd
    intro e he
    by_cases hc : f.start_line ≤ sl ∧ sl ≤ f.end_line
    · simp only [attachLoopFns, if_pos hc] at he
      rcases List.mem_cons.mp he with rfl | he
      · intro r hr
        rcases List.mem_append.mp hr with hr | hr
        · exact h (n, f) (List.mem_cons_self _ _) r hr
        · rw [List.mem_singleton.mp hr]; exact hli
      · exact h e (List.mem_cons_of_mem _ he)
    · simp only [attachLoopFns, if_neg hc] at he
      rcases List.mem_cons.mp he with rfl | he
      · exact h (n, f) (List.mem_cons_self _ _)
      · exact ih (fun e he => h e (List.mem_cons_of_mem _ he)) e he

theorem analyzeClassDecl_chainOK (c : Cursor) (fa : FileAnalysis) (h : faChainOK fa) :
    faChainOK (analyzeClassDecl c fa) := by
  obtain ⟨h1, h2, h3⟩ := h
  refine ⟨h1, h2, ?_⟩
  simp only [analyzeClassDecl]
  intro ce hce
  exact dinsert_forall (fun cd => ∀ me ∈ cd.methods, ∀ r ∈ me.2.loops, recChainOK r)
    fa.classes _ _ h3 (by simp) ce hce

theorem analyzeFunctionDecl_chainOK (c : Cursor) (fa : FileAnalysis) (h : faChainOK fa) :
    faChainOK (analyzeFunctionDecl c fa) := by
  obtain ⟨h1, h2, h3⟩ := h
  refine ⟨h1, ?_, h3⟩
  simp only [analyzeFunctionDecl]
  intro e he
  exact dinsert_forall (fun fr => ∀ r ∈ fr.loops, recChainOK r)
    fa.functions _ _ h2 (by simp) e he

theorem analyzeMethodDecl_chainOK (c : Cursor) (cname : String) (fa : FileAnalysis)
    (h : faChainOK fa) : faChainOK (analyzeMethodDecl c cname fa) := by
  obtain ⟨h1, h2, h3⟩ := h
  refine ⟨h1, h2, ?_⟩
  simp only [analyzeMethodDecl]
  intro ce hce
  refine updAt_forall (fun cd => ∀ me ∈ cd.methods, ∀ r ∈ me.2.loops, recChainOK r)
    fa.classes _ _ h3 ?_ ce hce
  intro cd hcd
  refine dinsert_forall (fun fr => ∀ r ∈ fr.loops, recChainOK r)
    cd.methods _ _ hcd ?_
  simp

theorem analyzeLoopTop_chainOK (target : String) (c : Cursor) (anc : List CKind)
    (ctx : Option Ctx) (fa : FileAnalysis) (h : faChainOK fa) :
    faChainOK (analyzeLoopTop target c anc ctx fa) := by
  obtain ⟨h1, h2, h3⟩ := h
  have hli : recChainOK (mkLoopRecord target c anc) := by
    unfold recChainOK
    rw [mkLoopRecord_nestingOf]
    exact mkLoopRecord_chain target c anc
  unfold analyzeLoopTop
  cases ctx with
  | none =>
    refine ⟨?_, h2, h3⟩
    intro r hr
    rcases List.mem_append.mp hr with hr | hr
    · exact h1 r hr
    · rw [List.mem_singleton.mp hr]; exact hli
  | some cc =>
    cases cc with
    | funcCtx n =>
      exact ⟨h1, attachLoopFns_forall recChainOK fa.functions _ _ h2 hli, h3⟩
    | classCtx cname =>
      refine ⟨h1, h2, ?_⟩
      unfold attachLoopClass
      refine updAt_forall (fun cd => ∀ me ∈ cd.methods, ∀ r ∈ me.2.loops, recChainOK r)
        fa.classes _ _ h3 ?_
      intro cd hcd
      exact attachLoopFns_forall recChainOK cd.methods _ _ hcd hli

theorem declDispatch_chainOK (target : String) (c : Cursor) (anc : List CKind)
    (ctx : Option Ctx) (fa : FileAnalysis) (h : faChainOK fa) :
    faChainOK (declDispatch target c anc ctx fa) := by
  unfold declDispatch
  cases hk : c.kindOf
  case classDecl => exact analyzeClassDecl_chainOK c fa h
  case functionDecl => exact analyzeFunctionDecl_chainOK c fa h
  case cxxMethod =>
    cases ctx with
    | none => exact h
    | some cc =>
      cases cc with
      | funcCtx n => exact h
      | classCtx n => exact analyzeMethodDecl_chainOK c n fa h
  all_goals first
    | exact h
    | exact analyzeLoopTop_chainOK target c anc ctx fa h

mutual
theorem analyzeCursor_chainOK : ∀ (target : String) (c : Cursor) (anc : List CKind)
    (ctx : Option Ctx) (fa : FileAnalysis), faChainOK fa →
    faChainOK (analyzeCursor target c anc ctx fa)
  | target, .node i cs, anc, ctx, fa, h => by
    rw [analyzeCursor]
    split
    · exact h
    split
    · exact h
    · exact analyzeCursorList_chainOK target cs (i.kind :: anc)
        (childCtx (.node i cs) ctx) _
        (declDispatch_chainOK target (.node i cs) anc ctx fa h)
theorem analyzeCursorList_chainOK : ∀ (target : String) (cs : CursorList)
    (anc : List CKind) (ctx : Option Ctx) (fa : FileAnalysis), faChainOK fa →
    faChainOK (analyzeCursorList target cs anc ctx fa)
  | _, .nil, _, _, _, h => by rw [analyzeCursorList]; exact h
  | target, .cons c cs, anc, ctx, fa, h => by
    rw [analyzeCursorList]
    exact analyzeCursorList_chainOK target cs anc ctx _
      (analyzeCursor_chainOK target c anc ctx fa h)
end

theorem faChainOK_empty : faChainOK emptyFileAnalysis := by
  refine ⟨?_, ?_, ?_⟩ <;> intro e he <;> simp [emptyFileAnalysis] at he

theorem allTop_of_faChainOK (fa : FileAnalysis) (h : faChainOK fa) :
    ∀ r ∈ allTopRecords fa, recChainOK r := by
  intro r hr
  unfold allTopRecords at hr
  rcases List.mem_append.mp hr with hr | hr
  · rcases List.mem_append.mp hr with hr | hr
    · exact h.1 r hr
    · rcases List.mem_flatten.mp hr with ⟨l, hl, hrl⟩
      rcases List.mem_map.mp hl with ⟨e, he, rfl⟩
      exact h.2.1 e he r hrl
  · rcases List.mem_flatten.mp hr with ⟨l, hl, hrl⟩
    rcases List.mem_map.mp hl with ⟨ce, hce, rfl⟩
    rcases List.mem_flatten.mp hrl with ⟨l2, hl2, hrl2⟩
    rcases List.mem_map.mp hl2 with ⟨me, hme, rfl⟩
    exact h.2.2 ce hce me hme r hrl2

/-! ### The call-graph builder never writes called_by -/

theorem cgStep_called_by (n : CGNode) (name : String) :
    (cgStep n name).called_by = n.called_by := by
  simp only [cgStep]
  split <;> split <;> rfl

theorem foldCalls_called_by (cl : List DCallRec) : ∀ (n : CGNode),
    (foldCalls n cl).called_by = n.called_by := by
  induction cl with
  | nil => intro n; rfl
  | cons c rest ih =>
    intro n
    unfold foldCalls at *
    simp only [List.foldl_cons]
    rw [ih (cgStep n c.function)]
    exact cgStep_called_by n c.function

mutual
theorem ecLoop_called_by : ∀ (r : LoopRec) (n : CGNode),
    (ecLoop r n).called_by = n.called_by
  | .node i ns, n => by
    rw [ecLoop, ecList_called_by ns (foldCalls n i.fcalls)]
    exact foldCalls_called_by i.fcalls n
theorem ecList_called_by : ∀ (ns : LoopRecList) (n : CGNode),
    (ecList ns n).called_by = n.called_by
  | .nil, n => by rw [ecList]
  | .cons r rest, n => by
    rw [ecList, ecList_called_by rest (ecLoop r n)]
    exact ecLoop_called_by r n
end

theorem extractCallsFromLoops_called_by (l : List LoopRec) : ∀ (n : CGNode),
    (extractCallsFromLoops l n).called_by = n.called_by := by
  induction l with
  | nil => intro n; rfl
  | cons r rest ih =>
    intro n
    unfold extractCallsFromLoops at *
    simp only [List.foldl_cons]
    rw [ih (ecLoop r n)]
    exact ecLoop_called_by r n

theorem cgAddFn_called_by (g : List (String × CGNode)) (name : String)
    (loops : List LoopRec) (hg : ∀ e ∈ g, e.2.called_by = []) :
    ∀ e ∈ cgAddFn g name loops, e.2.called_by = [] := by
  unfold cgAddFn
  have hg1 : ∀ e ∈ (if (alookup g name).isNone then g ++ [(name, emptyCG)] else g),
      e.2.called_by = [] := by
    split
    · intro e he
      rcases List.mem_append.mp he with he | he
      · exact hg e he
      · rw [List.mem_singleton.mp he]; rfl
    · exact hg
  intro e he
  refine updAt_forall (fun v => v.called_by = []) _ name
    (extractCallsFromLoops loops) hg1 ?_ e he
  intro v hv
  rw [extractCallsFromLoops_called_by loops v, hv]

theorem foldl_pres {α β : Type} (f : β → α → β) (P : β → Prop)
    (h : ∀ b a, P b → P (f b a)) : ∀ (l : List α) (b : β), P b → P (l.foldl f b) := by
  intro l
  induction l with
  | nil => intro b hb; exact hb
  | cons a rest ih => intro b hb; exact ih (f b a) (h b a hb)

theorem genCallGraph_called_by (rs : List (String × FileAnalysis)) :
    ∀ e ∈ genCallGraph rs, e.2.called_by = [] := by
  unfold genCallGraph
  refine foldl_pres _
    (fun g : List (String × CGNode) => ∀ e ∈ g, e.2.called_by = []) ?_ rs [] (by simp)
  intro g fe hg
  refine foldl_pres _
    (fun g : List (String × CGNode) => ∀ e ∈ g, e.2.called_by = []) ?_ fe.2.classes _ ?_
  · intro g ce hgc
    refine foldl_pres _
      (fun g : List (String × CGNode) => ∀ e ∈ g, e.2.called_by = []) ?_
      ce.2.methods g hgc
    intro g me hgm
    exact cgAddFn_called_by g _ _ hgm
  · refine foldl_pres _
      (fun g : List (String × CGNode) => ∀ e ∈ g, e.2.called_by = []) ?_
      fe.2.functions g hg
    intro g fe2 hgf
    exact cgAddFn_called_by g _ _ hgf

/-! ### Lookup and length lemmas for the dict operations -/

theorem alookup_dinsert_self {α : Type} (m : List (String × α)) (k : String) (v : α) :
    alookup (dinsert m k v) k = some v := by
  induction m with
  | nil => simp [dinsert, alookup]
  | cons hd rest ih =>
    obtain ⟨k0, v0⟩ := hd
    by_cases h : k0 = k
    · subst h; simp [dinsert, alookup]
    · have h2 : k ≠ k0 := fun he => h he.symm
      simp [dinsert, alookup, h, h2, ih]

theorem alookup_dinsert_other {α : Type} (m : List (String × α)) (k q : String) (v : α)
    (hq : q ≠ k) : alookup (dinsert m k v) q = alookup m q := by
  induction m with
  | nil => simp [dinsert, alookup, hq]
  | cons hd rest ih =>
    obtain ⟨k0, v0⟩ := hd
    by_cases h : k0 = k
    · subst h; simp [dinsert, alookup, hq]
    · simp [dinsert, alookup, h, ih]

theorem dinsert_length_new {α : Type} (m : List (String × α)) (k : String) (v : α)
    (h : alookup m k = none) : (dinsert m k v).length = m.length + 1 := by
  induction m with
  | nil => rfl
  | cons hd rest ih =>
    obtain ⟨k0, v0⟩ := hd
    by_cases hk : k0 = k
    · subst hk; simp [alookup] at h
    · have h2 : k ≠ k0 := fun he => hk he.symm
      simp [alookup, h2] at h
      simp [dinsert, hk, ih h]

/-! ### Per-file-step and run lemmas of the orchestrator -/

theorem processFile_processed (parse : String → Option Cursor) (st : RunState)
    (p : String) : (processFile parse st p).processed = st.processed + 1 := by
  unfold processFile
  cases hp : parse p <;> rfl

theorem runFiles_processed (parse : String → Option Cursor) (files : List String) :
    ∀ st : RunState, (runFiles parse files st).processed = st.processed + files.length := by
  induction files with
  | nil => intro st; simp [runFiles]
  | cons f fs ih =>
    intro st
    unfold runFiles at *
    simp only [List.foldl_cons]
    rw [ih (processFile parse st f), processFile_processed]
    simp [Nat.add_assoc, Nat.add_comm 1 fs.length]

theorem processFile_lookup_other (parse : String → Option Cursor) (st : RunState)
    (p q : String) (h : q ≠ p) :
    alookup (processFile parse st p).results q = alookup st.results q := by
  unfold processFile
  cases hp : parse p
  · rfl
  · exact alookup_dinsert_other st.results p q _ h

theorem runFiles_lookup_none (parse : String → Option Cursor) (files : List String)
    (p : String) (hp : parse p = none) : ∀ st : RunState,
    alookup (runFiles parse files st).results p = alookup st.results p := by
  induction files with
  | nil => intro st; rfl
  | cons f fs ih =>
    intro st
    unfold runFiles at *
    simp only [List.foldl_cons]
    rw [ih (processFile parse st f)]
    by_cases hpf : p = f
    · subst hpf
      unfold processFile
      rw [hp]
    · exact processFile_lookup_other parse st f p hpf

theorem runFiles_lookup_some (parse : String → Option Cursor) (p : String) (t : Cursor)
    (hp : parse p = some t) : ∀ (files : List String) (st : RunState),
    alookup (runFiles parse files st).results p =
      if p ∈ files then some (analyzeFile p t) else alookup st.results p := by
  intro files
  induction files with
  | nil => intro st; simp [runFiles]
  | cons f fs ih =>
    intro st
    unfold runFiles at *
    simp only [List.foldl_cons]
    rw [ih (processFile parse st f)]
    by_cases hmem : p ∈ fs
    · simp [hmem, List.mem_cons]
    · by_cases hpf : p = f
      · subst hpf
        rw [if_neg hmem, if_pos (List.mem_cons_self p fs)]
        unfold processFile
        rw [hp]
        exact alookup_dinsert_self st.results p (analyzeFile p t)
      · have hnc : ¬ p ∈ f :: fs := by
          intro hc
          rcases List.mem_cons.mp hc with hc | hc
          · exact hpf hc
          · exact hmem hc
        rw [if_neg hmem, if_neg hnc]
        exact processFile_lookup_other parse st f p hpf

theorem runFiles_length_fresh (parse : String → Option Cursor) :
    ∀ (files : List String) (st : RunState), files.Nodup →
    (∀ p ∈ files, alookup st.results p = none) →
    (runFiles parse files st).results.length =
      st.results.length + (files.filter (fun p => (parse p).isSome)).length := by
  intro files
  induction files with
  | nil => intro st _ _; simp [runFiles]
  | cons f fs ih =>
    intro st hnd hfresh
    have hfnotin : f ∉ fs := (List.nodup_cons.mp hnd).1
    have hndfs : fs.Nodup := (List.nodup_cons.mp hnd).2
    unfold runFiles at *
    simp only [List.foldl_cons]
    have hfresh' : ∀ p ∈ fs, alookup (processFile parse st f).results p = none := by
      intro p hpfs
      have hne : p ≠ f := fun he => hfnotin (he ▸ hpfs)
      rw [processFile_lookup_other parse st f p hne]
      exact hfresh p (List.mem_cons_of_mem _ hpfs)
    rw [ih (processFile parse st f) hndfs hfresh']
    cases hf : parse f with
    | none =>
      have hres : (processFile parse st f).results = st.results := by
        unfold processFile; rw [hf]
      rw [hres]
      simp [List.filter_cons, hf]
    | some t =>
      have hres : (processFile parse st f).results =
          dinsert st.results f (analyzeFile f t) := by
        unfold processFile; rw [hf]
      rw [hres, dinsert_length_new st.results f _ (hfresh f (List.mem_cons_self _ _))]
      simp [List.filter_cons, hf]
      omega

theorem filter_isSome_isNone_length (parse : String → Option Cursor) (fs : List String) :
    (fs.filter (fun p => (parse p).isSome)).length +
      (fs.filter (fun p => (parse p).isNone)).length = fs.length := by
  induction fs with
  | nil => rfl
  | cons f rest ih =>
    cases hf : parse f <;> simp [List.filter_cons, hf] <;> omega

/-! ### Claim C1 -/

/-- C1: for every Loop record in a file's AnalysisResult, including every
nested Loop, its nesting level equals 1 plus the nesting level of its
lexically nearest enclosing Loop, or 1 if it has no enclosing loop.
First conjunct: a record built by _analyze_loop for a node whose ancestor
chain is anc carries level 1 + (number of enclosing loop nodes) — hence
level 1 with no enclosing loop, and exactly one more than the level any
record of the nearest enclosing loop node carries, since that node has one
fewer enclosing loop — and every owned nested record sits one level above
its owner, recursively (nestChainB).  Second conjunct: every record attached
anywhere in an analyzeFile result roots such a chain. -/
theorem c1_nesting_level_invariant :
    (∀ (target : String) (c : Cursor) (anc : List CKind),
      nestChainB (1 + (anc.filter (fun k => isLoopKind k)).length)
        (mkLoopRecord target c anc) = true) ∧
    (∀ (target : String) (t : Cursor),
      (allTopRecords (analyzeFile target t)).all
        (fun r => nestChainB r.nestingOf r) = true) := by
  constructor
  · intro target c anc
    exact mkLoopRecord_chain target c anc
  · intro target t
    refine List.all_eq_true.mpr ?_
    intro r hr
    exact allTop_of_faChainOK _
      (analyzeCursor_chainOK target t [] none emptyFileAnalysis faChainOK_empty) r hr

/-! ### Claim C6 -/

/-- C6: analyzing for (i = 0; i < 10; i++) { sum += arr[i]; } produces a
for-loop record whose bounds are the source texts of the loop node's first
three children, exactly one arithmetic operation record (for sum += arr[i],
whose text contains an arithmetic symbol, appended to the arithmetic list),
and exactly one memory-access record of access type 1d_array, for arr[i],
recorded as a read (the writes list stays empty). -/
theorem c6_for_scenario :
    (analyzeFile exTarget t6).global_loops.map
        (fun r => (r.typeOf, r.boundsOf.initialization, r.boundsOf.condition,
          r.boundsOf.increment, r.boundsOf.estimated_iterations)) =
      [("for_loop", "i = 0", "i < 10", "i++", "unknown")] ∧
    (analyzeFile exTarget t6).global_loops.map (fun r => alookup r.opsOf "arithmetic") =
      [some [{ otype := "arithmetic", expression := "sum += arr[i]", line := 1 }]] ∧
    (analyzeFile exTarget t6).global_loops.map
        (fun r => r.readsOf.filter (fun m => m.access_type = "1d_array")) =
      [[{ varName := "arr", access_pattern := "arr[i]", access_type := "1d_array",
          stride_pattern := "unknown", line := 1 }]] ∧
    (analyzeFile exTarget t6).global_loops.map (fun r => r.writesOf) = [[]] := by
  exact ⟨by decide, by decide, by decide, by decide⟩

/-! ### Claim C7 -/

/-- C7: for every do-while loop with at least two children the condition is
the stripped source text of the loop node's last child and the
initialization and increment stay empty; the source
do { x++; } while (x < n); yields condition "x < n" with empty
initialization and empty increment. -/
theorem c7_do_while_bounds :
    (∀ c : Cursor, c.kindOf = CKind.doStmt → 2 ≤ c.childrenOf.length →
      (extractLoopBounds c).initialization = "" ∧
      (extractLoopBounds c).condition =
        ((c.childrenOf.getLast?).map (fun x => trimS x.textOf)).getD "" ∧
      (extractLoopBounds c).increment = "") ∧
    (analyzeFile exTarget t7).global_loops.map
        (fun r => (r.boundsOf.initialization, r.boundsOf.condition,
          r.boundsOf.increment)) =
      [("", "x < n", "")] := by
  constructor
  · intro c hk hlen
    unfold extractLoopBounds
    rw [hk]
    rw [if_pos hlen]
    exact ⟨rfl, rfl, rfl⟩
  · decide

/-- Witness for C7: the general do-while rule applied to the concrete
do-while node of the scenario. -/
theorem c7_do_while_bounds_witness :
    (t7do.kindOf = CKind.doStmt ∧ 2 ≤ t7do.childrenOf.length) ∧
    ((extractLoopBounds t7do).initialization = "" ∧
      (extractLoopBounds t7do).condition =
        ((t7do.childrenOf.getLast?).map (fun x => trimS x.textOf)).getD "" ∧
      (extractLoopBounds t7do).increment = "") :=
  ⟨⟨rfl, by decide⟩, c7_do_while_bounds.1 t7do rfl (by decide)⟩

/-! ### Claim C3 -/

/-- Counterexample for C3: in the analysis of a function containing a for
loop with a nested for loop, the nested loop node — identified by its
(start line, start column) loop_id loop_3_3 — produces both a nested child
record of its enclosing Loop and a separate top-level record in the
Declaration's loop list: some top-level loop_id of f also occurs among the
nested loop_ids under f's top-level records, so the claim that no loop node
yields both is false on this input. -/
theorem c3_counterexample :
    (alookup (analyzeFile t3Target t3).functions "f").map (fun fr =>
      (fr.loops.map LoopRec.idOf).any (fun i =>
        ((fr.loops.map (fun r => r.nestedOf.map LoopRec.idOf)).flatten).contains i)) =
      some true := by decide

/-- C3 amended: each created Loop record object is attached to exactly one
container, but the top-level walk also descends into loop bodies, so a
nested loop node yields a second, separate top-level record in the
containing Declaration besides the nested child record of its enclosing
Loop; the records therefore do not form a tree over loop nodes, and the
loop is double-counted: f's loop list holds the outer record (level 1,
owning the nested copy of the inner node at level 2) and a second top-level
record of the same inner node (level 2), the file's total_loops counter
reads 2, and count_loops reports 3 records for the 2 loop nodes. -/
theorem c3_amended_double_record :
    (alookup (analyzeFile t3Target t3).functions "f").map (fun fr =>
      fr.loops.map (fun r =>
        (r.idOf, r.nestingOf, r.nestedOf.map (fun s => (s.idOf, s.nestingOf))))) =
      some [("loop_2_1", 1, [("loop_3_3", 2)]), ("loop_3_3", 2, [])] ∧
    (analyzeFile t3Target t3).total_loops = 2 ∧
    countLoops (analyzeFile t3Target t3) = 3 := by
  exact ⟨by decide, by decide, by decide⟩

/-! ### Claim C5 -/

/-- C5 amended: every binary-operator node's textual form is tested in
fixed order — arithmetic, then logical, then bitwise — against the fixed
symbol set of each class, and the first matching class determines the
record's type tag; but only arithmetic records are appended to a per-class
list: the operations dict is pre-populated only with the arithmetic (and
assignments and function-calls) keys, so logical, bitwise and unmatched
records all land in the shared catch-all other list created by setdefault;
every unary-operator node is appended to a separate unary list
unconditionally. -/
theorem c5_classification_and_buckets :
    (∀ s, hasAnyOp s ARITHMETIC_OPS = true → classifyBinaryOp s = "arithmetic") ∧
    (∀ s, hasAnyOp s ARITHMETIC_OPS = false → hasAnyOp s LOGICAL_OPS = true →
      classifyBinaryOp s = "logical") ∧
    (∀ s, hasAnyOp s ARITHMETIC_OPS = false → hasAnyOp s LOGICAL_OPS = false →
      hasAnyOp s BITWISE_OPS = true → classifyBinaryOp s = "bitwise") ∧
    (∀ s, hasAnyOp s ARITHMETIC_OPS = false → hasAnyOp s LOGICAL_OPS = false →
      hasAnyOp s BITWISE_OPS = false → classifyBinaryOp s = "unknown") ∧
    (∀ s ln, classifyBinaryOp s = "arithmetic" →
      recordBinaryOp opsInit s ln =
        [("arithmetic", [{ otype := "arithmetic", expression := trimS s, line := ln }]),
         ("assignments", [])]) ∧
    (∀ s ln, classifyBinaryOp s ≠ "arithmetic" →
      recordBinaryOp opsInit s ln =
        [("arithmetic", []), ("assignments", []),
         ("other", [{ otype := classifyBinaryOp s, expression := trimS s, line := ln }])]) ∧
    (∀ ops s ln, recordUnaryOp ops s ln =
      opsAppend ops "unary" { otype := "unary", expression := trimS s, line := ln }) := by
  have hcases : ∀ s, classifyBinaryOp s = "arithmetic" ∨ classifyBinaryOp s = "logical" ∨
      classifyBinaryOp s = "bitwise" ∨ classifyBinaryOp s = "unknown" := by
    intro s
    unfold classifyBinaryOp
    split_ifs <;> simp
  refine ⟨?_, ?_, ?_, ?_, ?_, ?_, ?_⟩
  · intro s h; simp [classifyBinaryOp, h]
  · intro s h1 h2; simp [classifyBinaryOp, h1, h2]
  · intro s h1 h2 h3; simp [classifyBinaryOp, h1, h2, h3]
  · intro s h1 h2 h3; simp [classifyBinaryOp, h1, h2, h3]
  · intro s ln h
    unfold recordBinaryOp
    rw [h]
    rfl
  · intro s ln h
    unfold recordBinaryOp
    rcases hcases s with hc | hc | hc | hc
    · exact absurd hc h
    all_goals rw [hc]; rfl
  · intro ops s ln; rfl

/-- Witness for C5: the purely logical text a && b is classified logical
(arithmetic fails, logical matches) and its record is appended to the
catch-all other list, not to a logical list. -/
theorem c5_classification_witness :
    (hasAnyOp "a && b" ARITHMETIC_OPS = false ∧ hasAnyOp "a && b" LOGICAL_OPS = true) ∧
    classifyBinaryOp "a && b" = "logical" ∧
    recordBinaryOp opsInit "a && b" 3 =
      [("arithmetic", []), ("assignments", []),
       ("other", [{ otype := "logical", expression := "a && b", line := 3 }])] := by
  have hc : classifyBinaryOp "a && b" = "logical" :=
    c5_classification_and_buckets.2.1 "a && b" (by decide) (by decide)
  have hr := c5_classification_and_buckets.2.2.2.2.2.1 "a && b" 3 (by rw [hc]; decide)
  rw [hc] at hr
  rw [show trimS "a && b" = "a && b" from by decide] at hr
  exact ⟨⟨by decide, by decide⟩, hc, hr⟩

/-- Counterexample for C5: in the analysis of a while loop whose body holds
the binary operation ok && go, the record is classified logical yet the
Loop's operation lists contain no logical (nor bitwise) list — the record
is stored in the catch-all other list — so the claim that the record is
appended to that class's list among the classified lists is false on this
input. -/
theorem c5_counterexample :
    (analyzeFile t5Target t5).global_loops.map (fun r =>
      (alookup r.opsOf "logical", alookup r.opsOf "bitwise", alookup r.opsOf "other")) =
      [(none, none, some [{ otype := "logical", expression := "ok && go", line := 2 }])] := by
  decide

/-! ### Claim C2 -/

/-- Counterexample for C2: the file a.c parses, and while walking it the
inspection of the function h raises (caught at that node's scope) — an
exception during the walk of the file — yet the file still contributes an
entry to the result map, and the merged AnalysisResult is partial: it holds
the healthy function g but has lost h entirely.  The claim that such a file
contributes no entry is false on this input. -/
theorem c2_counterexample :
    (alookup (scratchRun parse2 [t2Target]).results t2Target).isSome = true ∧
    (alookup (scratchRun parse2 [t2Target]).results t2Target).map
        (fun fa => ((alookup fa.functions "g").isSome, (alookup fa.functions "h").isNone)) =
      some (true, true) := by
  exact ⟨by decide, by decide⟩

/-- C2 amended: exceptions raised while walking a file are caught inside the
walker at the raising node's scope, so analyze_file always returns and every
successfully parsed file contributes its (possibly partial) AnalysisResult
to the orchestrator's result map; processing of the remaining files
continues — every file of the list is attempted.  Only a parse failure
(parse_file returning None) keeps a file out of the result map. -/
theorem c2_walk_exception_still_merges (parse : String → Option Cursor)
    (files : List String) (st : RunState) (p : String) (t : Cursor)
    (h1 : parse p = some t) (h2 : p ∈ files) :
    alookup (runFiles parse files st).results p = some (analyzeFile p t) ∧
    (runFiles parse files st).processed = st.processed + files.length := by
  constructor
  · rw [runFiles_lookup_some parse p t h1 files st, if_pos h2]
  · exact runFiles_processed parse files st

/-- Witness for C2: the amended statement applied to the raising tree of the
counterexample scenario. -/
theorem c2_walk_exception_still_merges_witness :
    (parse2 t2Target = some t2 ∧ t2Target ∈ [t2Target]) ∧
    (alookup (runFiles parse2 [t2Target] initRunState).results t2Target =
        some (analyzeFile t2Target t2) ∧
      (runFiles parse2 [t2Target] initRunState).processed =
        initRunState.processed + [t2Target].length) :=
  ⟨⟨by simp [parse2], List.mem_singleton.mpr rfl⟩,
    c2_walk_exception_still_merges parse2 [t2Target] initRunState t2Target t2
      (by simp [parse2]) (List.mem_singleton.mpr rfl)⟩

/-! ### Claim C4 -/

/-- C4: for the function f whose loop calls g twice and which calls h once
outside any loop, the call graph maps f to calls_in_loops = calls = a
single deduplicated first-seen entry g; h appears in neither list (call
extraction only scans loop bodies, so the outside-loop call to h is never
recorded), and called_by is the empty list for every function of every
generated call graph. -/
theorem c4_call_graph_scenario :
    (alookup (genCallGraph rs4) "f").map CGNode.calls = some ["g"] ∧
    (alookup (genCallGraph rs4) "f").map CGNode.calls_in_loops = some ["g"] ∧
    ∀ rs : List (String × FileAnalysis),
      (genCallGraph rs).all (fun e => e.2.called_by.isEmpty) = true := by
  refine ⟨by decide, by decide, ?_⟩
  intro rs
  refine List.all_eq_true.mpr ?_
  intro e he
  have h := genCallGraph_called_by rs e he
  simp [h]

/-! ### Claim C8 -/

/-- Zeta-expanded form of resumeRun. -/
theorem resumeRun_def (parse : String → Option Cursor) (files : List String)
    (ck : RunState) :
    resumeRun parse files ck =
      runFiles parse (files.filter (fun f => (alookup ck.results f).isNone))
        { results := ck.results
          totalLoops := (ck.results.map (fun e => countLoops e.2)).sum
          processed := files.length -
            (files.filter (fun f => (alookup ck.results f).isNone)).length } := rfl

/-- C8: over the same file set, a from-scratch run and a run resumed from a
checkpoint taken partway through (after the prefix a of the discovered list
a ++ b) produce equal final result maps: every path maps to the same
analysis in both.  Resuming excludes exactly the paths already present as
keys of the checkpoint's result map and seeds the result map and the
running totals from the checkpoint, and the per-file analysis is a
deterministic function of the front-end's parse, so both runs converge. -/
theorem c8_resume_matches_scratch (parse : String → Option Cursor)
    (a b : List String) (p : String) :
    alookup (scratchRun parse (a ++ b)).results p =
      alookup (resumeRun parse (a ++ b) (scratchRun parse a)).results p := by
  have hinit : alookup initRunState.results p = none := rfl
  cases hp : parse p with
  | none =>
    rw [scratchRun, runFiles_lookup_none parse (a ++ b) p hp initRunState, hinit,
      resumeRun_def, runFiles_lookup_none parse _ p hp _]
    dsimp only
    rw [scratchRun, runFiles_lookup_none parse a p hp initRunState, hinit]
  | some t =>
    have hck : alookup (scratchRun parse a).results p =
        if p ∈ a then some (analyzeFile p t) else none := by
      rw [scratchRun, runFiles_lookup_some parse p t hp a initRunState, hinit]
    rw [scratchRun, runFiles_lookup_some parse p t hp (a ++ b) initRunState, hinit,
      resumeRun_def, runFiles_lookup_some parse p t hp _ _]
    dsimp only
    by_cases hpa : p ∈ a
    · have hsome : alookup (scratchRun parse a).results p = some (analyzeFile p t) := by
        rw [hck, if_pos hpa]
      rw [hsome, if_pos (List.mem_append.mpr (Or.inl hpa))]
      by_cases hpf : p ∈ (a ++ b).filter
          (fun f => (alookup (scratchRun parse a).results f).isNone)
      · rw [if_pos hpf]
      · rw [if_neg hpf]
    · have hnone : alookup (scratchRun parse a).results p = none := by
        rw [hck, if_neg hpa]
      rw [hnone]
      have hmemiff : p ∈ (a ++ b).filter
          (fun f => (alookup (scratchRun parse a).results f).isNone) ↔ p ∈ a ++ b := by
        rw [List.mem_filter]
        constructor
        · exact fun h => h.1
        · intro h
          refine ⟨h, ?_⟩
          rw [hnone]
          rfl
      by_cases hpab : p ∈ a ++ b
      · rw [if_pos hpab, if_pos (hmemiff.mpr hpab)]
      · rw [if_neg hpab, if_neg (fun hc => hpab (hmemiff.mp hc))]

/-! ### Claim C9 -/

/-- Counterexample for C9: the run attempts one file of one, the file fails
to parse and is skipped, and cancellation then yields the interrupted
output with files_processed = 1 while the persisted checkpoint's result map
has 0 entries, not 1.  The claim that the checkpoint has exactly i entries
after processing file i is false on this input. -/
theorem c9_counterexample :
    (cancelAfter parseNone ["a.c"] 1).2.files_processed = 1 ∧
    (cancelAfter parseNone ["a.c"] 1).2.interrupted = true ∧
    (cancelAfter parseNone ["a.c"] 1).1.source_files.length = 0 := by
  exact ⟨rfl, rfl, rfl⟩

/-- C9 amended: cancelling the run after i of n attempted files persists a
checkpoint whose result map has one entry per successfully analyzed file —
exactly i entries when every attempted (distinct) file parsed — and then
emits a terminal output in the completed-run schema with
files_processed = i, files_remaining = n - i and interrupted = true; the
checkpoint and the output carry the same result map, so every committed
AnalysisResult appears in both. -/
theorem c9_interruption_safety (parse : String → Option Cursor) (files : List String)
    (i : Nat) (hi : i ≤ files.length) (hnd : files.Nodup)
    (hok : ∀ p ∈ files.take i, (parse p).isSome = true) :
    (cancelAfter parse files i).1.source_files.length = i ∧
    (cancelAfter parse files i).1.files_processed = i ∧
    (cancelAfter parse files i).1.checkpointFlag = true ∧
    (cancelAfter parse files i).2.files_processed = i ∧
    (cancelAfter parse files i).2.files_remaining = files.length - i ∧
    (cancelAfter parse files i).2.interrupted = true ∧
    (cancelAfter parse files i).1.source_files = (cancelAfter parse files i).2.source_files := by
  have htake : (files.take i).length = i := by
    rw [List.length_take]
    omega
  have hndt : (files.take i).Nodup := hnd.sublist (List.take_sublist i files)
  have hproc : (runFiles parse (files.take i) initRunState).processed = i := by
    rw [runFiles_processed]
    simpa [initRunState] using htake
  have hlen : (runFiles parse (files.take i) initRunState).results.length = i := by
    rw [runFiles_length_fresh parse (files.take i) initRunState hndt
      (by intro p hp; rfl)]
    rw [List.filter_eq_self.mpr hok]
    simpa [initRunState] using htake
  refine ⟨hlen, hproc, rfl, hproc, ?_, rfl, rfl⟩
  show files.length - (runFiles parse (files.take i) initRunState).processed =
    files.length - i
  rw [hproc]

/-- Witness for C9: the amended statement at a two-file list with an
all-parsing front-end, cancelled after the first file. -/
theorem c9_interruption_safety_witness :
    (1 ≤ (["a.c", "b.c"] : List String).length ∧ (["a.c", "b.c"] : List String).Nodup ∧
      ∀ p ∈ (["a.c", "b.c"] : List String).take 1, (parseOk p).isSome = true) ∧
    ((cancelAfter parseOk ["a.c", "b.c"] 1).1.source_files.length = 1 ∧
      (cancelAfter parseOk ["a.c", "b.c"] 1).1.files_processed = 1 ∧
      (cancelAfter parseOk ["a.c", "b.c"] 1).1.checkpointFlag = true ∧
      (cancelAfter parseOk ["a.c", "b.c"] 1).2.files_processed = 1 ∧
      (cancelAfter parseOk ["a.c", "b.c"] 1).2.files_remaining =
        (["a.c", "b.c"] : List String).length - 1 ∧
      (cancelAfter parseOk ["a.c", "b.c"] 1).2.interrupted = true ∧
      (cancelAfter parseOk ["a.c", "b.c"] 1).1.source_files =
        (cancelAfter parseOk ["a.c", "b.c"] 1).2.source_files) :=
  ⟨⟨by decide, by decide, fun p _ => rfl⟩,
    c9_interruption_safety parseOk ["a.c", "b.c"] 1 (by decide) (by decide)
      (fun p _ => rfl)⟩

/-! ### Claim C10 -/

/-- C10: the processed-files counter is incremented for every attempted
file, including files skipped because their parse failed, so after i
attempted files processed = i while the result map has one entry per
successful file: entry count plus skipped count equals files_processed, and
the entry count can be strictly below it (at most i). -/
theorem c10_processed_counts_attempts (parse : String → Option Cursor)
    (files : List String) (i : Nat) (hi : i ≤ files.length) (hnd : files.Nodup) :
    (runFiles parse (files.take i) initRunState).processed = i ∧
    (runFiles parse (files.take i) initRunState).results.length +
      ((files.take i).filter (fun p => (parse p).isNone)).length = i ∧
    (runFiles parse (files.take i) initRunState).results.length ≤ i := by
  have htake : (files.take i).length = i := by
    rw [List.length_take]
    omega
  have hndt : (files.take i).Nodup := hnd.sublist (List.take_sublist i files)
  have hproc : (runFiles parse (files.take i) initRunState).processed = i := by
    rw [runFiles_processed]
    simpa [initRunState] using htake
  have hres := runFiles_length_fresh parse (files.take i) initRunState hndt
    (by intro p hp; rfl)
  have hsplit := filter_isSome_isNone_length parse (files.take i)
  have hres2 : (runFiles parse (files.take i) initRunState).results.length =
      ((files.take i).filter (fun p => (parse p).isSome)).length := by
    rw [hres]
    simp [initRunState]
  refine ⟨hproc, by omega, by omega⟩

/-- Witness for C10: a two-file list whose first file fails to parse and
whose second parses: both are counted as processed, the result map has one
entry, and 2 - 1 = 1 is the number of skipped files. -/
theorem c10_processed_counts_attempts_witness :
    (2 ≤ (["a.c", "b.c"] : List String).length ∧ (["a.c", "b.c"] : List String).Nodup) ∧
    ((runFiles parseMixed ((["a.c", "b.c"] : List String).take 2) initRunState).processed = 2 ∧
      (runFiles parseMixed ((["a.c", "b.c"] : List String).take 2) initRunState).results.length +
        (((["a.c", "b.c"] : List String).take 2).filter
          (fun p => (parseMixed p).isNone)).length = 2 ∧
      (runFiles parseMixed ((["a.c", "b.c"] : List String).take 2) initRunState).results.length ≤ 2) :=
  ⟨⟨by decide, by decide⟩,
    c10_processed_counts_attempts parseMixed ["a.c", "b.c"] 2 (by decide) (by decide)⟩

end LoopExplore
